import Mathlib

/-!
Verification of the multi-session MCP tool orchestrator (`app.py`).

The development shallowly embeds the orchestrator: history entries,
the Claude message buffer, the model-response content blocks, the
per-turn processing loop `_process_query`, the entry point
`process_message`, the tool registry built by `_connect_client`, and
the per-spec status report of `_initialize_servers`.

External effects are modelled as oracles packaged in `Env`:
`backend1` is the first model call (made with the tool catalog
attached), `backend2` the follow-up call (made without the catalog),
and `callTool` the MCP session round-trip, which either returns the
stringified result content or raises (modelled as `Except.error`).
Python exceptions that the code does not catch are propagated as
`Except.error` values of the whole run; the Python `dict` updates of
`tool_to_client` are modelled as pointwise function updates applied in
registration order.
-/

namespace MCP

/-- A tool descriptor as fetched in `MCPClient.connect`:
`{"name": ..., "description": ..., "input_schema": ...}`. The schema is
kept opaque as a string. -/
structure ToolDescriptor where
  name : String
  description : String
  inputSchema : String
deriving DecidableEq

/-- Display metadata attached to raw tool-result messages
(`{"parent_id": ..., "id": ..., "title": ...}`). -/
structure MsgMetadata where
  parent_id : String
  id : String
  title : String
deriving DecidableEq

/-- One chat-history entry as accepted by `_process_query`: either a
Gradio `ChatMessage` object (role and content always present) or a
plain dict, whose `.get` lookups may return `None`. Output messages
produced by the engine are dicts, i.e. the `mapping` form. -/
inductive HistEntry where
  | chatMessage (role : String) (content : String)
  | mapping (role : Option String) (content : Option String) (metadata : Option MsgMetadata)
deriving DecidableEq

/-- Reads `msg.role` for a `ChatMessage`, `msg.get("role")` for a dict. -/
def HistEntry.role : HistEntry → Option String
  | .chatMessage r _ => some r
  | .mapping r _ _ => r

/-- Reads `msg.content` for a `ChatMessage`, `msg.get("content")` for a dict. -/
def HistEntry.content : HistEntry → Option String
  | .chatMessage _ c => some c
  | .mapping _ c _ => c

/-- A message in the Claude API request buffer (`claude_messages`).
The content is optional because a dict history entry without a
`"content"` key contributes `None`. -/
structure CMsg where
  role : String
  content : Option String
deriving DecidableEq

/-- One content block of a model response: `text` or `tool_use`.
Tool arguments are kept opaque as a string. -/
inductive ContentBlock where
  | text (s : String)
  | toolUse (name : String) (input : String)
deriving DecidableEq

/-- Whether a content block is a `tool_use` block. -/
def ContentBlock.isToolUse : ContentBlock → Bool
  | .toolUse _ _ => true
  | _ => false

/-- The role-membership test `role in ["user", "assistant", "system"]`
applied to an optional role (`None` is not in the list). -/
def isAllowedRole : Option String → Bool
  | some r => r == "user" || r == "assistant" || r == "system"
  | none => false

/-- Per-entry translation of a history entry into a Claude message:
`some` when the entry is kept, `none` when it is silently dropped. -/
def toClaudeMsg (e : HistEntry) : Option CMsg :=
  match e.role with
  | some r =>
    if r == "user" || r == "assistant" || r == "system" then some ⟨r, e.content⟩ else none
  | none => none

/-- The history-translation loop at the top of `_process_query`:
for each entry, read role and content (object attribute or dict
lookup), keep it when the role is user/assistant/system. -/
def historyToClaude : List HistEntry → List CMsg
  | [] => []
  | e :: rest =>
    match e.role with
    | some r =>
      if r == "user" || r == "assistant" || r == "system" then
        ⟨r, e.content⟩ :: historyToClaude rest
      else
        historyToClaude rest
    | none => historyToClaude rest

/-- The composed request buffer: translated history followed by the
new user message (`claude_messages.append({"role": "user", ...})`). -/
def composedMessages (history : List HistEntry) (message : String) : List CMsg :=
  historyToClaude history ++ [⟨"user", some message⟩]

/-- An assistant output message without metadata, as appended for a
`text` content block and for the Model-Call-2 follow-up text. -/
def mkAssistant (s : String) : HistEntry :=
  .mapping (some "assistant") (some s) none

/-- The raw-result message appended after a successful tool call:
the result text fenced in triple backticks, tagged with metadata
derived from the tool name. -/
def rawResultMsg (toolName resultText : String) : HistEntry :=
  .mapping (some "assistant") (some ("```\n" ++ resultText ++ "\n```"))
    (some ⟨"result_" ++ toolName, "raw_result_" ++ toolName, "Raw Output"⟩)

/-- The synthetic user message carrying a tool result, appended to the
request buffer before Model-Call-2. -/
def toolResultCMsg (toolName resultText : String) : CMsg :=
  ⟨"user", some ("Tool result for " ++ toolName ++ ":\n" ++ resultText)⟩

/-- The user history entry `{"role": "user", "content": message}` that
`process_message` inserts between the old history and the new turn
messages. -/
def mkUserEntry (message : String) : HistEntry :=
  .mapping (some "user") (some message) none

/-- The follow-up messages contributed by a Model-Call-2 response:
`if next_response.content and next_response.content[0].type == 'text'`
appends one assistant message with the first block's text; anything
else contributes nothing. -/
def followUpMsgs : List ContentBlock → List HistEntry
  | .text s :: _ => [mkAssistant s]
  | _ => []

/-- An observable external action of a turn: a model-backend call
(recording which tool catalog, if any, was attached to the request) or
a session tool invocation (`client.session.call_tool`). -/
inductive Event where
  | backendCall (tools : Option (List ToolDescriptor))
  | sessionCall (client : String) (tool : String)
deriving DecidableEq

/-- Whether an event is a follow-up model call, i.e. a backend call
whose request carries no tool catalog. -/
def isFollowUpCall : Event → Bool
  | .backendCall none => true
  | _ => false

/-- Whether an event is a session tool invocation. -/
def isSessionCallEvent : Event → Bool
  | .sessionCall _ _ => true
  | _ => false

/-- An uncaught Python exception escaping `_process_query`:
`noneHasNoAttribute` is the `AttributeError` raised by
`client.session` when `tool_to_client.get(tool_name)` returned `None`;
`toolCallFailed` is an exception raised by `call_tool` itself. -/
inductive Err where
  | noneHasNoAttribute (toolName : String)
  | toolCallFailed (toolName : String) (e : String)
deriving DecidableEq

/-- Decidable equality of `Except` values, used to evaluate the
engine on closed inputs. -/
instance {ε α : Type} [DecidableEq ε] [DecidableEq α] : DecidableEq (Except ε α) := fun a b =>
  match a, b with
  | .ok x, .ok y =>
    if h : x = y then .isTrue (h ▸ rfl) else .isFalse (fun hc => h (Except.ok.inj hc))
  | .error x, .error y =>
    if h : x = y then .isTrue (h ▸ rfl) else .isFalse (fun hc => h (Except.error.inj hc))
  | .ok _, .error _ => .isFalse (fun hc => Except.noConfusion hc)
  | .error _, .ok _ => .isFalse (fun hc => Except.noConfusion hc)

/-- The oracle environment of one turn: the registry contents
(`tool_to_client`, mapping a tool name to the owning client's name),
the flattened catalog `all_tools`, the session round-trip `callTool`
(client, tool, args ↦ stringified result content, or the exception it
raises), and the two model-call oracles as functions of the request
buffer. `backend1` is always issued with `tools = allTools` attached,
`backend2` with no tool catalog, which the produced `Event`s record. -/
structure Env where
  toolToClient : String → Option String
  allTools : List ToolDescriptor
  callTool : String → String → String → Except String String
  backend1 : List CMsg → List ContentBlock
  backend2 : List CMsg → List ContentBlock

/-- The response-processing loop of `_process_query` over the content
blocks of the Model-Call-1 response, threading the request buffer
(`claude_messages` grows by one synthetic user message per successful
tool call). Returns the trace of external events together with either
the produced output messages or the first uncaught exception. A `text`
block appends an assistant message. A `tool_use` block resolves the
name via `tool_to_client.get`; a `None` client aborts the turn with an
`AttributeError`; a raising `call_tool` aborts the turn with that
exception; on success the raw-result message is appended, the result
is pushed onto the buffer, and Model-Call-2 is issued without the tool
catalog, contributing its leading text block, if any. -/
def processBlocks (env : Env) : List CMsg → List ContentBlock → List Event × Except Err (List HistEntry)
  | _, [] => ([], .ok [])
  | buf, .text s :: rest =>
    let r := processBlocks env buf rest
    (r.1, r.2.map (fun ms => mkAssistant s :: ms))
  | buf, .toolUse name args :: rest =>
    match env.toolToClient name with
    | none => ([], .error (.noneHasNoAttribute name))
    | some c =>
      match env.callTool c name args with
      | .error e => ([.sessionCall c name], .error (.toolCallFailed name e))
      | .ok resultText =>
        let buf2 := buf ++ [toolResultCMsg name resultText]
        let resp2 := env.backend2 buf2
        let r := processBlocks env buf2 rest
        (.sessionCall c name :: .backendCall none :: r.1,
         r.2.map (fun ms => rawResultMsg name resultText :: (followUpMsgs resp2 ++ ms)))

/-- Embeds `_process_query`: compose the request buffer from history and the
new user message, issue Model-Call-1 with the tool catalog attached,
then process the response's content blocks in order. -/
def processQuery (env : Env) (history : List HistEntry) (message : String) :
    List Event × Except Err (List HistEntry) :=
  let claude := composedMessages history message
  let r := processBlocks env claude (env.backend1 claude)
  (.backendCall (some env.allTools) :: r.1, r.2)

/-- Embeds `process_message`: run the turn and return
`history + [{"role": "user", "content": message}] + new_messages`;
an exception escaping `_process_query` escapes here too. The Gradio
textbox-reset half of the returned tuple carries no information and is
omitted. -/
def process_message (env : Env) (message : String) (history : List HistEntry) :
    Except Err (List HistEntry) :=
  ((processQuery env history message).2).map
    (fun newMessages => history ++ [mkUserEntry message] ++ newMessages)

/-- The assistant messages contributed by the `text` blocks of a block
list, in order. -/
def textsToMsgs (blocks : List ContentBlock) : List HistEntry :=
  blocks.filterMap (fun b => match b with | .text s => some (mkAssistant s) | _ => none)

/-! ### Registry construction and server startup -/

/-- What `_connect_client` records about one successfully connected
client: its `server_name` and the advertised tool names. -/
structure ClientInfo where
  id : String
  toolNames : List String
deriving DecidableEq

/-- A single Python dict assignment `m[k] = v` on a string-keyed dict,
viewed as a lookup function. -/
def dictInsert (m : String → Option String) (k v : String) : String → Option String :=
  fun n => if n = k then some v else m n

/-- The registration loop of `_connect_client`:
`for tool_name in client.tool_server_map: tool_to_client[tool_name] = client`. -/
def registerClientTools (m : String → Option String) (c : ClientInfo) : String → Option String :=
  c.toolNames.foldl (fun acc n => dictInsert acc n c.id) m

/-- The registry contents after a sequence of client registrations has
run, in that order, starting from the empty dict. -/
def buildRegistry (order : List ClientInfo) : String → Option String :=
  order.foldl registerClientTools (fun _ => none)

/-- The registry produced by `_initialize_servers`'s concurrent
startup: `asyncio.gather` runs the `_connect_client` coroutines
concurrently, and each one performs its registry writes when its
`connect` finishes, atomically (no suspension between the writes). The
order in which the connects finish is decided by subprocess timing,
not by the program, so it enters the model as the explicit
`completionOrder` parameter: a permutation of the spec indices listing
which client's registration ran first, second, and so on. -/
def startupRegistry (specs : List ClientInfo) (completionOrder : List Nat) : String → Option String :=
  buildRegistry (completionOrder.filterMap (fun i => specs[i]?))

/-- Left-biased choice on optional owners: the first argument, when
present, hides the second. -/
def orD (a b : Option String) : Option String :=
  match a with
  | some v => some v
  | none => b

/-- The client owning a tool name after a registration sequence, read
off declaratively: the last client in the sequence whose catalog
contains the name (an owner among the later registrations beats the
head). -/
def lastOwner (order : List ClientInfo) (n : String) : Option String :=
  match order with
  | [] => none
  | c :: cs => orD (lastOwner cs n) (if c.toolNames.contains n then some c.id else none)

/-- One launch spec of `_initialize_servers`: the client's
`server_name` and the server script path passed to `connect`. -/
structure LaunchSpec where
  serverName : String
  serverPath : String
deriving DecidableEq

/-- The success summary returned by `MCPClient.connect`. -/
def connectSummary (serverName : String) (toolNames : List String) : String :=
  serverName ++ "と接続しました。利用可能なツール: " ++ String.intercalate ", " toolNames

/-- The failure line produced by the `except` clause of
`_connect_client`, naming the spec's server path. -/
def connectFailure (serverPath : String) (e : String) : String :=
  "Failed to connect to " ++ serverPath ++ " server: " ++ e

/-- The status string `_connect_client` returns for one spec, given
its connect outcome (the advertised tool names on success, the raised
exception's text on failure). -/
def connectClientStatus (spec : LaunchSpec) (outcome : Except String (List String)) : String :=
  match outcome with
  | .ok toolNames => connectSummary spec.serverName toolNames
  | .error e => connectFailure spec.serverPath e

/-- Embeds `_initialize_servers` as a status report: one `_connect_client`
status per spec, gathered in spec order (`asyncio.gather` returns
results in the order the awaitables were passed, regardless of
completion order). The connect outcome of each spec is an oracle. -/
def initServers (outcome : LaunchSpec → Except String (List String))
    (specs : List LaunchSpec) : List String :=
  specs.map (fun s => connectClientStatus s (outcome s))

/-- The single string `_initialize_servers` actually returns:
the per-spec statuses joined by newlines. -/
def initServersReport (outcome : LaunchSpec → Except String (List String))
    (specs : List LaunchSpec) : String :=
  String.intercalate "\n" (initServers outcome specs)

/-! ### Concrete fixtures

Small closed environments used to evaluate the engine on concrete
turns. `Env` fields in order: `toolToClient`, `allTools`, `callTool`,
`backend1`, `backend2`. -/

/-- A turn whose model requests a tool that no session advertises. -/
def env1 : Env :=
  ⟨fun _ => none, [], fun _ _ _ => .ok "",
   fun _ => [.toolUse "get_current_weather" "tokyo"], fun _ => []⟩

/-- A turn whose requested tool resolves but whose `call_tool` raises
(dead channel). -/
def env2 : Env :=
  ⟨fun n => if n = "get_os_name" then some "mcp_os_name" else none,
   [⟨"get_os_name", "OS name", "obj"⟩],
   fun _ _ _ => .error "McpError: Connection closed",
   fun _ => [.toolUse "get_os_name" "noargs"], fun _ => []⟩

/-- A turn whose Model-Call-1 response is a tool_use block followed by
a trailing text block; the tool succeeds and Model-Call-2 returns no
content. -/
def env4 : Env :=
  ⟨fun n => if n = "get_os_name" then some "mcp_os_name" else none,
   [⟨"get_os_name", "OS name", "obj"⟩],
   fun _ _ _ => .ok "Linux",
   fun _ => [.toolUse "get_os_name" "noargs", .text "trailing note"], fun _ => []⟩

/-- A turn whose Model-Call-1 response is plain text. -/
def env6 : Env :=
  ⟨fun _ => none, [], fun _ _ _ => .ok "",
   fun _ => [.text "こんにちは"], fun _ => []⟩

/-- A full successful tool round: one tool_use block, the call returns
`Linux`, and Model-Call-2 answers with text. -/
def env7 : Env :=
  ⟨fun n => if n = "get_os_name" then some "mcp_os_name" else none,
   [⟨"get_os_name", "OS name", "obj"⟩],
   fun _ _ _ => .ok "Linux",
   fun _ => [.toolUse "get_os_name" "noargs"],
   fun _ => [.text "Your OS is Linux."]⟩

/-- A text-only turn used to exercise `process_message`. -/
def env8 : Env :=
  ⟨fun _ => none, [], fun _ _ _ => .ok "",
   fun _ => [.text "pong"], fun _ => []⟩

/-- Two clients advertising the same tool name. -/
def clientA : ClientInfo := ⟨"A", ["get_os_name"]⟩

/-- See `clientA`. -/
def clientB : ClientInfo := ⟨"B", ["get_os_name"]⟩

/-- The two launch specs of `_initialize_servers`. -/
def specOs : LaunchSpec := ⟨"mcp_os_name", "server/mcp_os_name.py"⟩

/-- See `specOs`. -/
def specDisk : LaunchSpec := ⟨"mcp_disk_usage", "server/mcp_disk_usage.py"⟩

/-- A connect oracle under which the OS server connects and the disk
server fails. -/
def outcomeMixed : LaunchSpec → Except String (List String) :=
  fun s => if s.serverName = "mcp_os_name" then .ok ["get_os_name"] else .error "boom"

/-! ### Helper lemmas -/

/-- The history-translation loop is the `filterMap` of the per-entry
translation: each entry is kept or dropped independently, and the kept
entries preserve their relative order. -/
theorem historyToClaude_eq_filterMap (h : List HistEntry) :
    historyToClaude h = h.filterMap toClaudeMsg := by
  induction h with
  | nil => rfl
  | cons e rest ih =>
    simp only [historyToClaude, toClaudeMsg, List.filterMap_cons]
    cases hr : e.role with
    | none => simpa using ih
    | some r =>
      by_cases hc : (r == "user" || r == "assistant" || r == "system") = true
      · simp [hc, ih]
      · simp [hc, ih]

/-- A run of non-`tool_use` blocks at the front of the block list only
prepends their assistant messages; it touches neither the buffer, the
event trace, nor the outcome of the remaining blocks. -/
theorem processBlocks_text_run (env : Env) (buf : List CMsg) (rest : List ContentBlock)
    (pre : List ContentBlock) (hpre : ∀ b ∈ pre, b.isToolUse = false) :
    processBlocks env buf (pre ++ rest) =
      ((processBlocks env buf rest).1,
       (processBlocks env buf rest).2.map (fun ms => textsToMsgs pre ++ ms)) := by
  induction pre with
  | nil =>
    simp only [List.nil_append]
    rcases hpq : processBlocks env buf rest with ⟨ev, r⟩
    cases r <;> rfl
  | cons b pre ih =>
    have hb : b.isToolUse = false := hpre b (by simp)
    have hpre2 : ∀ b2 ∈ pre, b2.isToolUse = false := fun b2 hb2 => hpre b2 (by simp [hb2])
    have ih2 := ih hpre2
    cases b with
    | toolUse n a => simp [ContentBlock.isToolUse] at hb
    | text s =>
      have hstep : processBlocks env buf (ContentBlock.text s :: (pre ++ rest))
          = ((processBlocks env buf (pre ++ rest)).1,
             (processBlocks env buf (pre ++ rest)).2.map (fun ms => mkAssistant s :: ms)) := rfl
      rw [List.cons_append, hstep, ih2]
      rcases hpq : processBlocks env buf rest with ⟨ev, r⟩
      cases r <;> simp [textsToMsgs, List.filterMap_cons, Except.map]

/-- A block list without `tool_use` blocks produces no events and
succeeds with exactly its text blocks as assistant messages. -/
theorem processBlocks_all_text (env : Env) (buf : List CMsg) (blocks : List ContentBlock)
    (h : ∀ b ∈ blocks, b.isToolUse = false) :
    processBlocks env buf blocks = ([], .ok (textsToMsgs blocks)) := by
  have := processBlocks_text_run env buf [] blocks h
  simpa [processBlocks, Except.map] using this

/-- Unfolding of the loop at a `tool_use` block whose name resolves
and whose call succeeds. -/
theorem processBlocks_toolUse_ok (env : Env) (buf : List CMsg) (rest : List ContentBlock)
    (n a c res : String) (h1 : env.toolToClient n = some c)
    (h2 : env.callTool c n a = .ok res) :
    processBlocks env buf (.toolUse n a :: rest) =
      (.sessionCall c n :: .backendCall none ::
        (processBlocks env (buf ++ [toolResultCMsg n res]) rest).1,
       (processBlocks env (buf ++ [toolResultCMsg n res]) rest).2.map
         (fun ms => rawResultMsg n res ::
           (followUpMsgs (env.backend2 (buf ++ [toolResultCMsg n res])) ++ ms))) := by
  simp [processBlocks, h1, h2]

/-- Unfolding of the loop at a `tool_use` block whose name is absent
from the registry: no session is invoked and the turn aborts with the
`AttributeError` raised by `client.session` on a `None` client. -/
theorem processBlocks_toolUse_none (env : Env) (buf : List CMsg) (rest : List ContentBlock)
    (n a : String) (h1 : env.toolToClient n = none) :
    processBlocks env buf (.toolUse n a :: rest) = ([], .error (.noneHasNoAttribute n)) := by
  simp [processBlocks, h1]

/-- Unfolding of the loop at a resolved `tool_use` block whose
`call_tool` raises: the session was invoked, and the exception aborts
the turn before any output message is produced. -/
theorem processBlocks_toolUse_err (env : Env) (buf : List CMsg) (rest : List ContentBlock)
    (n a c e : String) (h1 : env.toolToClient n = some c)
    (h2 : env.callTool c n a = .error e) :
    processBlocks env buf (.toolUse n a :: rest) =
      ([.sessionCall c n], .error (.toolCallFailed n e)) := by
  simp [processBlocks, h1, h2]

/-- Event accounting of a successful run of the block loop: one
follow-up model call (with no catalog attached) and one session
invocation per `tool_use` block, and nothing else in the trace. -/
theorem processBlocks_ok_events (env : Env) (blocks : List ContentBlock) :
    ∀ (buf : List CMsg) (ev : List Event) (msgs : List HistEntry),
      processBlocks env buf blocks = (ev, Except.ok msgs) →
      ev.countP isFollowUpCall = blocks.countP ContentBlock.isToolUse ∧
      ev.countP isSessionCallEvent = blocks.countP ContentBlock.isToolUse ∧
      ∀ e ∈ ev, e = Event.backendCall none ∨ isSessionCallEvent e = true := by
  induction blocks with
  | nil =>
    intro buf ev msgs h
    simp only [processBlocks, Prod.mk.injEq] at h
    obtain ⟨h1, _⟩ := h
    subst h1
    simp
  | cons b rest ih =>
    intro buf ev msgs h
    cases b with
    | text s =>
      rcases hpq : processBlocks env buf rest with ⟨ev2, r2⟩
      have hstep : processBlocks env buf (ContentBlock.text s :: rest)
          = ((processBlocks env buf rest).1,
             (processBlocks env buf rest).2.map (fun ms => mkAssistant s :: ms)) := rfl
      rw [hpq] at hstep
      rw [hstep] at h
      cases r2 with
      | error e2 => simp [Except.map] at h
      | ok ms2 =>
        simp only [Except.map, Prod.mk.injEq, Except.ok.injEq] at h
        obtain ⟨hev, _⟩ := h
        subst hev
        have ihh := ih buf ev2 ms2 hpq
        refine ⟨?_, ?_, ihh.2.2⟩
        · simpa [List.countP_cons, ContentBlock.isToolUse] using ihh.1
        · simpa [List.countP_cons, ContentBlock.isToolUse] using ihh.2.1
    | toolUse n a =>
      cases hres : env.toolToClient n with
      | none =>
        rw [processBlocks_toolUse_none env buf rest n a hres] at h
        simp at h
      | some c =>
        cases hct : env.callTool c n a with
        | error e2 =>
          rw [processBlocks_toolUse_err env buf rest n a c e2 hres hct] at h
          simp at h
        | ok res =>
          rcases hpq : processBlocks env (buf ++ [toolResultCMsg n res]) rest with ⟨ev2, r2⟩
          have hstep := processBlocks_toolUse_ok env buf rest n a c res hres hct
          rw [hpq] at hstep
          rw [hstep] at h
          cases r2 with
          | error e2 => simp [Except.map] at h
          | ok ms2 =>
            simp only [Except.map, Prod.mk.injEq, Except.ok.injEq] at h
            obtain ⟨hev, _⟩ := h
            subst hev
            have ihh := ih (buf ++ [toolResultCMsg n res]) ev2 ms2 hpq
            refine ⟨?_, ?_, ?_⟩
            · simpa [List.countP_cons, ContentBlock.isToolUse, isFollowUpCall,
                isSessionCallEvent, Nat.add_comm] using ihh.1
            · simpa [List.countP_cons, ContentBlock.isToolUse, isFollowUpCall,
                isSessionCallEvent, Nat.add_comm] using ihh.2.1
            · intro e he
              simp only [List.mem_cons] at he
              rcases he with he | he | he
              · exact Or.inr (by simp [he, isSessionCallEvent])
              · exact Or.inl (by simp [he])
              · exact ihh.2.2 e he

/-- Pointwise effect of the per-client registration loop: the client's
own tools now map to it, everything else is untouched. -/
theorem foldl_dictInsert_apply (names : List String) :
    ∀ (m : String → Option String) (v n : String),
      (names.foldl (fun acc k => dictInsert acc k v) m) n
        = if names.contains n then some v else m n := by
  induction names with
  | nil => intro m v n; simp
  | cons k ks ih =>
    intro m v n
    simp only [List.foldl_cons, ih, List.contains_cons]
    by_cases hk : n = k
    · subst hk
      by_cases hks : ks.contains n = true <;> simp [dictInsert, hks]
    · have hbeq : (n == k) = false := by simp [hk]
      by_cases hks : ks.contains n = true <;> simp [dictInsert, hks, hbeq, hk]

/-- Characterizes `registerClientTools` as a pointwise update. -/
theorem registerClientTools_apply (m : String → Option String) (c : ClientInfo) (n : String) :
    registerClientTools m c n = if c.toolNames.contains n then some c.id else m n := by
  simpa [registerClientTools] using foldl_dictInsert_apply c.toolNames m c.id n

/-- Running a registration sequence over any starting dict resolves a
name to the last registered owner when one exists, and falls back to
the starting dict otherwise. -/
theorem foldl_registerClientTools_apply (order : List ClientInfo) :
    ∀ (m : String → Option String) (n : String),
      (order.foldl registerClientTools m) n = orD (lastOwner order n) (m n) := by
  induction order with
  | nil => intro m n; simp [lastOwner, orD]
  | cons c cs ih =>
    intro m n
    simp only [List.foldl_cons, ih, lastOwner]
    cases hl : lastOwner cs n with
    | some v => simp [orD]
    | none =>
      by_cases hmem : n ∈ c.toolNames <;>
        simp [orD, hmem, registerClientTools_apply]

/-- The registry built from a registration sequence is exactly the
last-registered-owner map. -/
theorem buildRegistry_eq_lastOwner (order : List ClientInfo) (n : String) :
    buildRegistry order n = lastOwner order n := by
  have h := foldl_registerClientTools_apply order (fun _ => none) n
  rw [buildRegistry, h]
  cases lastOwner order n <;> rfl

/-- The client registered last always wins a name it advertises. -/
theorem lastOwner_append_owner (order : List ClientInfo) (c : ClientInfo) (n : String)
    (hc : c.toolNames.contains n = true) :
    lastOwner (order ++ [c]) n = some c.id := by
  have hmem : n ∈ c.toolNames := by simpa using hc
  induction order with
  | nil => simp [lastOwner, hmem, orD]
  | cons d ds ih => simp [lastOwner, ih, orD]

/-! ### Claims -/

/-- Claim C5: server startup returns exactly one status entry per
launch spec — the connect success summary or a failure line naming the
failed spec — however many connect attempts fail; entry `i` is
determined by spec `i`'s own outcome alone, so one spec's failure
never prevents the others from being attempted and reported. -/
theorem claim_C5_startup_status_per_spec
    (outcome : LaunchSpec → Except String (List String)) (specs : List LaunchSpec) :
    (initServers outcome specs).length = specs.length ∧
    (∀ i : Nat, (initServers outcome specs)[i]?
        = (specs[i]?).map (fun s => connectClientStatus s (outcome s))) ∧
    (∀ s : LaunchSpec,
      (∀ ts, outcome s = .ok ts →
        connectClientStatus s (outcome s) = connectSummary s.serverName ts) ∧
      (∀ e, outcome s = .error e →
        connectClientStatus s (outcome s) = connectFailure s.serverPath e)) := by
  refine ⟨by simp [initServers], ?_, ?_⟩
  · intro i
    simp [initServers]
  · intro s
    constructor
    · intro ts h
      simp [connectClientStatus, h]
    · intro e h
      simp [connectClientStatus, h]

/-- Witness for C5: two specs, one succeeding and one failing, give
two entries; the failing one names its server path. -/
theorem claim_C5_witness :
    (initServers outcomeMixed [specOs, specDisk]).length = 2 ∧
    connectClientStatus specDisk (outcomeMixed specDisk)
      = connectFailure specDisk.serverPath "boom" := by
  have h := claim_C5_startup_status_per_spec outcomeMixed [specOs, specDisk]
  exact ⟨h.1, (h.2.2 specDisk).2 "boom" rfl⟩

/-- Claim C6: a turn whose Model-Call-1 response contains no tool_use
block invokes no session — the event trace is the single catalogued
model call — and its output is exactly the response's text blocks
mapped, in order, to assistant messages. -/
theorem claim_C6_no_toolUse_turn (env : Env) (history : List HistEntry) (message : String)
    (h : ∀ b ∈ env.backend1 (composedMessages history message), b.isToolUse = false) :
    processQuery env history message
      = ([Event.backendCall (some env.allTools)],
         Except.ok (textsToMsgs (env.backend1 (composedMessages history message)))) := by
  have hall := processBlocks_all_text env (composedMessages history message)
      (env.backend1 (composedMessages history message)) h
  simp [processQuery, hall]

/-- Witness for C6: a text-only response yields one assistant message
and no session invocation. -/
theorem claim_C6_witness :
    processQuery env6 [] "hi"
      = ([Event.backendCall (some [])], Except.ok [mkAssistant "こんにちは"]) := by
  have h := claim_C6_no_toolUse_turn env6 [] "hi" (by decide)
  simpa using h

/-- Claim C9: composing the backend request accepts each history entry
as a `ChatMessage` object or a plain mapping, silently omits exactly
the entries whose role is not user/assistant/system (the per-entry
translation is a `filterMap`, so retained entries keep their relative
order), and appends the new user message after them. -/
theorem claim_C9_history_translation (history : List HistEntry) (message : String) :
    composedMessages history message
      = history.filterMap toClaudeMsg ++ [⟨"user", some message⟩] ∧
    (∀ e : HistEntry, toClaudeMsg e = none ↔ isAllowedRole e.role = false) ∧
    (∀ e : HistEntry, isAllowedRole e.role = true →
      toClaudeMsg e = some ⟨(e.role).getD "", e.content⟩) := by
  refine ⟨?_, ?_, ?_⟩
  · rw [composedMessages, historyToClaude_eq_filterMap]
  · intro e
    cases e with
    | chatMessage r c =>
      by_cases hc : (r == "user" || r == "assistant" || r == "system") = true <;>
        simp [toClaudeMsg, isAllowedRole, HistEntry.role, hc]
    | mapping r c md =>
      cases r with
      | none => simp [toClaudeMsg, isAllowedRole, HistEntry.role]
      | some rr =>
        by_cases hc : (rr == "user" || rr == "assistant" || rr == "system") = true <;>
          simp [toClaudeMsg, isAllowedRole, HistEntry.role, hc]
  · intro e he
    cases e with
    | chatMessage r c =>
      simp only [isAllowedRole, HistEntry.role] at he
      simp [toClaudeMsg, HistEntry.role, HistEntry.content, he]
    | mapping r c md =>
      cases r with
      | none => simp [isAllowedRole, HistEntry.role] at he
      | some rr =>
        simp only [isAllowedRole, HistEntry.role] at he
        simp [toClaudeMsg, HistEntry.role, HistEntry.content, he]

/-- Witness for C9: a `ChatMessage` with an allowed role is retained
as-is. -/
theorem claim_C9_witness :
    toClaudeMsg (HistEntry.chatMessage "assistant" "ok")
      = some ⟨((HistEntry.chatMessage "assistant" "ok").role).getD "",
              (HistEntry.chatMessage "assistant" "ok").content⟩ :=
  (claim_C9_history_translation [] "q").2.2 (HistEntry.chatMessage "assistant" "ok") (by decide)

/-- Claim C7: in a turn that completes, exactly one follow-up model
call is issued per tool_use block of the Model-Call-1 response; every
model call that carries a tool catalog is the initial one with the
full catalog (follow-up requests omit the catalog, so they cannot
request further tools); and the number of session invocations equals
the number of tool_use blocks of the Model-Call-1 response alone —
whatever the follow-up responses contain, no further tool round
runs. -/
theorem claim_C7_one_followUp_per_toolUse (env : Env) (history : List HistEntry)
    (message : String) (msgs : List HistEntry)
    (h : (processQuery env history message).2 = Except.ok msgs) :
    ((processQuery env history message).1.countP isFollowUpCall
        = (env.backend1 (composedMessages history message)).countP ContentBlock.isToolUse) ∧
    ((processQuery env history message).1.countP isSessionCallEvent
        = (env.backend1 (composedMessages history message)).countP ContentBlock.isToolUse) ∧
    (∀ ts, Event.backendCall (some ts) ∈ (processQuery env history message).1 →
      ts = env.allTools) := by
  rcases hpq : processBlocks env (composedMessages history message)
      (env.backend1 (composedMessages history message)) with ⟨ev, r⟩
  have hq : processQuery env history message
      = (Event.backendCall (some env.allTools) :: ev, r) := by
    simp [processQuery, hpq]
  rw [hq] at h
  simp only at h
  cases r with
  | error e => simp at h
  | ok ms =>
    have hev := processBlocks_ok_events env
      (env.backend1 (composedMessages history message))
      (composedMessages history message) ev ms hpq
    rw [hq]
    refine ⟨?_, ?_, ?_⟩
    · simpa [List.countP_cons, isFollowUpCall] using hev.1
    · simpa [List.countP_cons, isSessionCallEvent] using hev.2.1
    · intro ts hts
      simp only [List.mem_cons] at hts
      rcases hts with hts | hts
      · injection hts with hts2
        injection hts2
      · rcases hev.2.2 _ hts with hshape | hshape
        · simp at hshape
        · simp [isSessionCallEvent] at hshape

/-- Witness for C7: a completed one-tool turn has exactly one
follow-up call and one session invocation. -/
theorem claim_C7_witness :
    ((processQuery env7 [] "what os?").1.countP isFollowUpCall
        = (env7.backend1 (composedMessages [] "what os?")).countP ContentBlock.isToolUse) ∧
    ((processQuery env7 [] "what os?").1.countP isSessionCallEvent
        = (env7.backend1 (composedMessages [] "what os?")).countP ContentBlock.isToolUse) := by
  have h := claim_C7_one_followUp_per_toolUse env7 [] "what os?"
      [rawResultMsg "get_os_name" "Linux", mkAssistant "Your OS is Linux."] (by decide)
  exact ⟨h.1, h.2.1⟩

/-- Claim C8: `process_message` does not mutate the caller's history:
when the turn completes, the result is the new list
`history ++ [user message] ++ new turn messages`, of which the
caller's history is the untouched prefix. -/
theorem claim_C8_history_not_mutated (env : Env) (message : String)
    (history : List HistEntry) (newMessages : List HistEntry)
    (h : (processQuery env history message).2 = Except.ok newMessages) :
    process_message env message history
      = Except.ok (history ++ [mkUserEntry message] ++ newMessages) ∧
    (history ++ [mkUserEntry message] ++ newMessages).take history.length = history := by
  constructor
  · simp [process_message, h, Except.map]
  · rw [List.append_assoc]
    simp

/-- Witness for C8: a completed text-only turn extends a one-message
history without touching it. -/
theorem claim_C8_witness :
    process_message env8 "ping" [mkAssistant "old"]
      = Except.ok ([mkAssistant "old"] ++ [mkUserEntry "ping"] ++ [mkAssistant "pong"]) ∧
    ([mkAssistant "old"] ++ [mkUserEntry "ping"] ++ [mkAssistant "pong"]).take 1
      = [mkAssistant "old"] := by
  have h := claim_C8_history_not_mutated env8 "ping" [mkAssistant "old"] [mkAssistant "pong"]
      (by decide)
  exact ⟨h.1, h.2⟩

/-- Claim C10: after a successful tool call, the follow-up assistant
message is appended exactly when Model-Call-2's response content is
non-empty with a text block first, and it carries that first block's
text; only the head of the response is consulted, so a text block at
any later position is discarded. -/
theorem claim_C10_followUp_first_block_only (env : Env) (history : List HistEntry)
    (message : String) (n a c res : String)
    (h1 : env.backend1 (composedMessages history message) = [ContentBlock.toolUse n a])
    (h2 : env.toolToClient n = some c)
    (h3 : env.callTool c n a = Except.ok res) :
    (processQuery env history message).2
      = Except.ok (rawResultMsg n res ::
          followUpMsgs (env.backend2
            (composedMessages history message ++ [toolResultCMsg n res]))) ∧
    (∀ s rest, followUpMsgs (ContentBlock.text s :: rest) = [mkAssistant s]) ∧
    (∀ n2 a2 rest, followUpMsgs (ContentBlock.toolUse n2 a2 :: rest) = []) ∧
    followUpMsgs [] = [] ∧
    (∀ b rest rest2, followUpMsgs (b :: rest) = followUpMsgs (b :: rest2)) := by
  refine ⟨?_, fun s rest => rfl, fun n2 a2 rest => rfl, rfl, ?_⟩
  · have hstep := processBlocks_toolUse_ok env (composedMessages history message) [] n a c res h2 h3
    simp [processQuery, h1, hstep, processBlocks, Except.map]
  · intro b rest rest2
    cases b <;> rfl

/-- Witness for C10: with Model-Call-2 answering text first, the
follow-up message is appended after the raw result. -/
theorem claim_C10_witness :
    (processQuery env7 [] "what os?").2
      = Except.ok (rawResultMsg "get_os_name" "Linux" ::
          followUpMsgs (env7.backend2
            (composedMessages [] "what os?" ++ [toolResultCMsg "get_os_name" "Linux"]))) := by
  have h := claim_C10_followUp_first_block_only env7 [] "what os?"
      "get_os_name" "noargs" "mcp_os_name" "Linux" (by decide) (by decide) (by decide)
  exact h.1

/-- Claim C1 as stated is false: with `get_current_weather` absent
from the registry, the turn produces no visible resolution-error
message — `tool_to_client.get` returns `None`, `client.session`
raises `AttributeError`, and the turn aborts with that uncaught
error (no output messages at all). -/
theorem claim_C1_counterexample :
    (processQuery env1 [] "weather?").2
      = Except.error (Err.noneHasNoAttribute "get_current_weather") := by
  decide

/-- Claim C1 amended: when the turn reaches a tool_use block whose
name is absent from the registry (any earlier blocks being text), no
session is invoked for it — the event trace holds only the initial
model call — but instead of a visible resolution-error message the
turn aborts with the uncaught `AttributeError`, producing no output
messages. -/
theorem claim_C1_amended_unresolved_aborts (env : Env) (history : List HistEntry)
    (message : String) (pre rest : List ContentBlock) (n a : String)
    (hpre : ∀ b ∈ pre, b.isToolUse = false)
    (hresp : env.backend1 (composedMessages history message)
      = pre ++ ContentBlock.toolUse n a :: rest)
    (hmiss : env.toolToClient n = none) :
    processQuery env history message
      = ([Event.backendCall (some env.allTools)],
         Except.error (Err.noneHasNoAttribute n)) := by
  have htp := processBlocks_text_run env (composedMessages history message)
      (ContentBlock.toolUse n a :: rest) pre hpre
  have hnone := processBlocks_toolUse_none env (composedMessages history message) rest n a hmiss
  rw [hnone] at htp
  simp [processQuery, hresp, htp, Except.map]

/-- Witness for the amended C1 at the concrete aborting turn. -/
theorem claim_C1_witness :
    processQuery env1 [] "weather?"
      = ([Event.backendCall (some [])],
         Except.error (Err.noneHasNoAttribute "get_current_weather")) := by
  have h := claim_C1_amended_unresolved_aborts env1 [] "weather?" [] []
      "get_current_weather" "tokyo" (by decide) (by decide) (by decide)
  simpa using h

/-- Claim C2 as stated is false: when the resolved `call_tool` raises,
the engine emits no visible error result — the exception escapes
`_process_query` and the turn aborts. -/
theorem claim_C2_counterexample :
    (processQuery env2 [] "os?").2
      = Except.error (Err.toolCallFailed "get_os_name" "McpError: Connection closed") := by
  decide

/-- Claim C2 amended: when the turn reaches a tool_use block that
resolves but whose `call_tool` raises, the session is invoked and the
exception propagates out of the turn: no visible error result is
emitted in its place, the remaining blocks are not processed, and the
turn produces no output messages — a tool-call failure aborts the turn
just like a model-backend failure, rather than being captured. -/
theorem claim_C2_amended_toolError_propagates (env : Env) (history : List HistEntry)
    (message : String) (pre rest : List ContentBlock) (n a c e : String)
    (hpre : ∀ b ∈ pre, b.isToolUse = false)
    (hresp : env.backend1 (composedMessages history message)
      = pre ++ ContentBlock.toolUse n a :: rest)
    (hres : env.toolToClient n = some c)
    (hfail : env.callTool c n a = Except.error e) :
    processQuery env history message
      = ([Event.backendCall (some env.allTools), Event.sessionCall c n],
         Except.error (Err.toolCallFailed n e)) := by
  have htp := processBlocks_text_run env (composedMessages history message)
      (ContentBlock.toolUse n a :: rest) pre hpre
  have herr := processBlocks_toolUse_err env (composedMessages history message) rest n a c e
      hres hfail
  rw [herr] at htp
  simp [processQuery, hresp, htp, Except.map]

/-- Witness for the amended C2 at the concrete aborting turn. -/
theorem claim_C2_witness :
    processQuery env2 [] "os?"
      = ([Event.backendCall (some [⟨"get_os_name", "OS name", "obj"⟩]),
          Event.sessionCall "mcp_os_name" "get_os_name"],
         Except.error (Err.toolCallFailed "get_os_name" "McpError: Connection closed")) := by
  have h := claim_C2_amended_toolError_propagates env2 [] "os?" [] []
      "get_os_name" "noargs" "mcp_os_name" "McpError: Connection closed"
      (by decide) (by decide) (by decide) (by decide)
  simpa using h

/-- Claim C3 as stated is false: with clients A and B both advertising
`get_os_name` and input order [A, B], the completion schedule [1, 0]
(B's connect finishes first — a permutation of the spec indices, so a
possible outcome of the concurrent startup) makes the name resolve to
A, the session whose registration ran last, not to B, the session last
in input order. -/
theorem claim_C3_counterexample :
    List.Perm [1, 0] (List.range 2) ∧
    startupRegistry [clientA, clientB] [1, 0] "get_os_name" = some "A" ∧
    startupRegistry [clientA, clientB] [1, 0] "get_os_name" ≠ some "B" := by
  refine ⟨by decide, by decide, by decide⟩

/-- Claim C3 amended: a colliding tool name resolves to the session
registered last in registration order — the order in which the
concurrent connect attempts completed — which is a permutation of the
input order but need not equal it. In particular the client whose
registration ran last always wins every name it advertises. -/
theorem claim_C3_amended_last_registered_wins (specs : List ClientInfo)
    (completionOrder : List Nat) (n : String) :
    startupRegistry specs completionOrder n
      = lastOwner (completionOrder.filterMap (fun i => specs[i]?)) n ∧
    (∀ (order : List ClientInfo) (c : ClientInfo), c.toolNames.contains n = true →
      lastOwner (order ++ [c]) n = some c.id) := by
  exact ⟨buildRegistry_eq_lastOwner _ n, fun order c hc => lastOwner_append_owner order c n hc⟩

/-- Witness for the amended C3: under the in-order schedule the
collision goes to B, the last registration. -/
theorem claim_C3_witness :
    startupRegistry [clientA, clientB] [0, 1] "get_os_name"
      = lastOwner [clientA, clientB] "get_os_name" ∧
    lastOwner ([clientA] ++ [clientB]) "get_os_name" = some "B" := by
  have h := claim_C3_amended_last_registered_wins [clientA, clientB] [0, 1] "get_os_name"
  exact ⟨h.1, h.2 [clientA] clientB (by decide)⟩

/-- Claim C4 as stated is false: with Model-Call-1 responding
[tool_use, text], the turn's output is the raw-result message followed
by the trailing text block's assistant message — not the claimed
[leading texts] ++ [raw result] ++ [Model-Call-2 text], which here
(no leading text, Model-Call-2 returning no content) would be the
raw-result message alone. -/
theorem claim_C4_counterexample :
    (processQuery env4 [] "os?").2
      = Except.ok [rawResultMsg "get_os_name" "Linux", mkAssistant "trailing note"] ∧
    (processQuery env4 [] "os?").2
      ≠ Except.ok [rawResultMsg "get_os_name" "Linux"] := by
  refine ⟨by decide, by decide⟩

/-- Claim C4 amended: for a turn whose Model-Call-1 response contains
exactly one tool_use block, which resolves and succeeds, the output
is: the text blocks before it as assistant messages in order, then the
raw-result message tagged with the tool name, then the Model-Call-2
text if any, then the text blocks after it as assistant messages; the
raw-result message never appears before its triggering block's
position. -/
theorem claim_C4_amended_single_toolUse_order (env : Env) (history : List HistEntry)
    (message : String) (pre post : List ContentBlock) (n a c res : String)
    (hpre : ∀ b ∈ pre, b.isToolUse = false)
    (hpost : ∀ b ∈ post, b.isToolUse = false)
    (hresp : env.backend1 (composedMessages history message)
      = pre ++ ContentBlock.toolUse n a :: post)
    (hres : env.toolToClient n = some c)
    (hok : env.callTool c n a = Except.ok res) :
    (processQuery env history message).2
      = Except.ok (textsToMsgs pre ++ [rawResultMsg n res]
          ++ followUpMsgs (env.backend2
              (composedMessages history message ++ [toolResultCMsg n res]))
          ++ textsToMsgs post) := by
  have hpost2 := processBlocks_all_text env
      (composedMessages history message ++ [toolResultCMsg n res]) post hpost
  have hstep := processBlocks_toolUse_ok env (composedMessages history message) post n a c res
      hres hok
  rw [hpost2] at hstep
  have htp := processBlocks_text_run env (composedMessages history message)
      (ContentBlock.toolUse n a :: post) pre hpre
  rw [hstep] at htp
  simp [processQuery, hresp, htp, Except.map]

/-- Witness for the amended C4 at the concrete [tool_use, text]
turn. -/
theorem claim_C4_witness :
    (processQuery env4 [] "os?").2
      = Except.ok (textsToMsgs [] ++ [rawResultMsg "get_os_name" "Linux"]
          ++ followUpMsgs (env4.backend2
              (composedMessages [] "os?" ++ [toolResultCMsg "get_os_name" "Linux"]))
          ++ textsToMsgs [ContentBlock.text "trailing note"]) := by
  have h := claim_C4_amended_single_toolUse_order env4 [] "os?"
      [] [ContentBlock.text "trailing note"] "get_os_name" "noargs" "mcp_os_name" "Linux"
      (by decide) (by decide) (by decide) (by decide) (by decide)
  simpa using h

end MCP
